import Mathlib

/-
Verification of the sampling-region library (`regions.py`, version 3.1):
axis-aligned N-dimensional boxes, their boundary surfaces decomposed into
orthogonal facets, proportional sample allocation and nearest-facet normals.

The embedding is over `List ℚ` (numpy float vectors become rational lists).
Randomness is made explicit: `np.random.uniform(low, high, ...)` computes
`low + u * (high - low)` with `u` drawn from `[0, 1)`, so sampling functions
take the unit draws `u` as an extra argument.  Fallible operations return
`Option`/`Except`.
-/

set_option maxHeartbeats 1000000

namespace Regions

/-- Models python `int()` on a real value: truncation toward zero. -/
def pyInt (q : ℚ) : ℤ := if q < 0 then -⌊-q⌋ else ⌊q⌋

/-- A numpy array as produced by `np.asarray`: a shape together with the
(row-major) flattened data. -/
structure NDArray where
  shape : List ℕ
  data : List ℚ

/-- Well-formedness of an `NDArray`: the data has as many entries as the
shape prescribes. -/
def NDArray.wf (a : NDArray) : Prop := a.data.length = a.shape.prod

/-- `Box`: N-dimensional box with sides orthogonal to the coordinate axes.
Holds the validated `upper_bounds` / `lower_bounds` vectors. -/
structure Box where
  upper_bounds : List ℚ
  lower_bounds : List ℚ

/-- `self.inp_dim`, stored in `Box.__init__` as `upper_bounds.shape[0]`. -/
def Box.inp_dim (b : Box) : ℕ := b.upper_bounds.length

/-- Models `Box.__init__`: raises `ValueError` iff the two (already coerced)
arrays differ in shape or the upper one is not rank-1. -/
def Box.make (upper lower : NDArray) : Except String Box :=
  if upper.shape ≠ lower.shape ∨ upper.shape.length ≠ 1 then
    Except.error "The dimensionality of minimum and maximum values does not match"
  else
    Except.ok ⟨upper.data, lower.data⟩

/-- Models `Box.__contains__`: every coordinate lies inclusively between the
per-axis lower and upper bounds. -/
def Box.containsPt (b : Box) (item : List ℚ) : Bool :=
  (List.range b.upper_bounds.length).all
    (fun i => decide (b.lower_bounds.getD i 0 ≤ item.getD i 0) &&
              decide (item.getD i 0 ≤ b.upper_bounds.getD i 0))

/-- Models `Box.get_mass`: `np.prod(np.abs(upper_bounds - lower_bounds))`. -/
def Box.get_mass (b : Box) : ℚ :=
  ((List.zipWith (fun u l => u - l) b.upper_bounds b.lower_bounds).map
    (fun x => |x|)).prod

/-- Models `Box.sample`:
`np.random.uniform(lower_bounds, upper_bounds, size=(num_samples, inp_dim))`,
with `unit r i` the unit-interval draw used for row `r`, coordinate `i`. -/
def Box.sample (b : Box) (num_samples : ℕ) (unit : ℕ → ℕ → ℚ) : List (List ℚ) :=
  (List.range num_samples).map (fun r =>
    (List.range b.inp_dim).map (fun i =>
      b.lower_bounds.getD i 0 +
        unit r i * (b.upper_bounds.getD i 0 - b.lower_bounds.getD i 0)))

/-- The `side` argument of `OrthogonalSurface`, `'top'` or `'bottom'`. -/
inductive Side where
  | top : Side
  | bottom : Side
deriving DecidableEq

/-- `OrthogonalSurface`: one (N-1)-dimensional facet of a box boundary,
pinned at `offset` along axis `offset_dim`. -/
structure OrthogonalSurface where
  inp_dim : ℕ
  upper_bounds_arg : List ℚ
  lower_bounds_arg : List ℚ
  upper_bounds : List ℚ
  lower_bounds : List ℚ
  surface : Box
  offset : ℚ
  offset_dim : ℕ
  side : Side

/-- Models `OrthogonalSurface.__init__`.  The numpy mask-scatter
(`bounds[mask] = arg; bounds[offset_dim] = offset` with `mask[offset_dim]=0`)
is exactly insertion of `offset` at index `offset_dim` into the (N-1)-length
argument vector.  `upper_bounds_arg` / `lower_bounds_arg` are the fields the
source stores with a leading underscore; `surface` is `self._surface`, the
embedded degenerate box built from the reconstructed full bounds. -/
def OrthogonalSurface.make (upper_bounds lower_bounds : List ℚ) (offset : ℚ)
    (offset_dim : ℕ) (side : Side) : OrthogonalSurface :=
  ⟨upper_bounds.length + 1,
   upper_bounds,
   lower_bounds,
   upper_bounds.insertIdx offset_dim offset,
   lower_bounds.insertIdx offset_dim offset,
   ⟨upper_bounds.insertIdx offset_dim offset,
    lower_bounds.insertIdx offset_dim offset⟩,
   offset,
   offset_dim,
   side⟩

/-- Models `OrthogonalSurface.get_mass`: product of `|upper - lower|` over
all axes except `offset_dim` (the mask `msk` with `msk[offset_dim] = 0`). -/
def OrthogonalSurface.get_mass (s : OrthogonalSurface) : ℚ :=
  ((List.zipWith (fun u l => u - l) (s.upper_bounds.eraseIdx s.offset_dim)
      (s.lower_bounds.eraseIdx s.offset_dim)).map (fun x => |x|)).prod

/-- Models `OrthogonalSurface.sample`: delegates to the embedded box. -/
def OrthogonalSurface.sample (s : OrthogonalSurface) (num_samples : ℕ)
    (unit : ℕ → ℕ → ℚ) : List (List ℚ) :=
  s.surface.sample num_samples unit

/-- Models `OrthogonalSurface.distance`:
`np.abs(point[offset_dim] - offset)`. -/
def OrthogonalSurface.distance (s : OrthogonalSurface) (point : List ℚ) : ℚ :=
  |point.getD s.offset_dim 0 - s.offset|

/-- Models `OrthogonalSurface.normal`: the zero vector of length `inp_dim`
with `+1` (side `'top'`) or `-1` (side `'bottom'`) at `offset_dim`; the
`point` argument is ignored. -/
def OrthogonalSurface.normal (s : OrthogonalSurface) (_point : List ℚ) :
    List ℚ :=
  (List.replicate s.inp_dim (0 : ℚ)).set s.offset_dim
    (if s.side = Side.top then 1 else -1)

instance : Inhabited OrthogonalSurface :=
  ⟨OrthogonalSurface.make [] [] 0 0 Side.top⟩

/-- `BoxSurface`: is-a `Box` plus the list `self.surfaces` of `2 * inp_dim`
orthogonal facets. -/
structure BoxSurface where
  toBox : Box
  surfaces : List OrthogonalSurface

/-- Models `BoxSurface.__init__` (after the `Box` validation succeeded):
for each axis `i`, `surfaces[2*i]` is the top facet at `upper_bounds[i]` and
`surfaces[2*i+1]` the bottom facet at `lower_bounds[i]`; the facet's own
bound vectors are the box's with axis `i` masked out. -/
def BoxSurface.make (upper_bounds lower_bounds : List ℚ) : BoxSurface :=
  ⟨⟨upper_bounds, lower_bounds⟩,
   (List.range upper_bounds.length).flatMap (fun i =>
     [OrthogonalSurface.make (upper_bounds.eraseIdx i) (lower_bounds.eraseIdx i)
        (upper_bounds.getD i 0) i Side.top,
      OrthogonalSurface.make (upper_bounds.eraseIdx i) (lower_bounds.eraseIdx i)
        (lower_bounds.getD i 0) i Side.bottom])⟩

/-- Models `BoxSurface.get_mass`: sum of the facet masses. -/
def BoxSurface.get_mass (bs : BoxSurface) : ℚ :=
  (bs.surfaces.map OrthogonalSurface.get_mass).sum

/-- Membership on a `BoxSurface` is inherited unchanged from `Box`
(`__contains__` is not overridden). -/
def BoxSurface.containsPt (bs : BoxSurface) (item : List ℚ) : Bool :=
  bs.toBox.containsPt item

/-- Models the allocation loop of `BoxSurface.sample`: walks the facet list
with the running index `j` and write position `prev`; every facet except the
last gets `int(get_mass / total * n)` samples (a float division by zero when
`total = 0`, which makes the later `int()` conversion fail — modelled as
`none`); the last facet gets `n - prev`. -/
def BoxSurface.sampleLoop (total : ℚ) (n : ℕ) (unit : ℕ → ℕ → ℕ → ℚ) :
    List OrthogonalSurface → ℕ → ℕ → Option (List (List (List ℚ)))
  | [], _, _ => some []
  | [s], j, prev => some [s.sample (n - prev) (unit j)]
  | s :: s' :: rest, j, prev =>
      if total = 0 then none
      else
        match BoxSurface.sampleLoop total n unit (s' :: rest) (j + 1)
            (prev + (pyInt (s.get_mass / total * n)).toNat) with
        | none => none
        | some blocks =>
            some (s.sample ((pyInt (s.get_mass / total * n)).toNat) (unit j)
              :: blocks)

/-- Models `BoxSurface.sample`: the per-facet blocks are written in facet
order into a zero-initialized `num_samples × inp_dim` buffer, so the result
is their concatenation padded with zero rows up to `num_samples` (the
padding is empty whenever the allocated counts already sum to
`num_samples`). -/
def BoxSurface.sample (bs : BoxSurface) (num_samples : ℕ)
    (unit : ℕ → ℕ → ℕ → ℚ) : Option (List (List ℚ)) :=
  (BoxSurface.sampleLoop bs.get_mass num_samples unit bs.surfaces 0 0).map
    (fun blocks =>
      blocks.flatten ++ List.replicate (num_samples - blocks.flatten.length)
        (List.replicate bs.toBox.inp_dim 0))

/-- Models `np.argmin`: index of the first occurrence of the minimum. -/
def argmin : List ℚ → ℕ
  | [] => 0
  | [_] => 0
  | x :: y :: rest =>
      if x ≤ (y :: rest).getD (argmin (y :: rest)) 0 then 0
      else argmin (y :: rest) + 1

/-- Models the closure returned by `BoxSurface.get_normal_func`: for each
point, look up the facet whose `distance` is minimal (first occurrence wins,
as with `np.argmin`) and return its `normal`. -/
def BoxSurface.get_normal_func (bs : BoxSurface) :
    List (List ℚ) → List (List ℚ) :=
  fun X => X.map (fun x =>
    (bs.surfaces.getD (argmin (bs.surfaces.map
      (fun s => s.distance x))) default).normal x)

/-- Specification-side predicate: `m` is the index of the first occurrence
of the minimum of `l` (the documented behaviour of `np.argmin`). -/
def isFirstMin (l : List ℚ) (m : ℕ) : Prop :=
  m < l.length ∧ (∀ j < l.length, l.getD m 0 ≤ l.getD j 0) ∧
    ∀ j < m, l.getD m 0 < l.getD j 0

/-- Specification-side allocation count, following the specification's words
for `BoxSurface.sample` (the refinement target the loop is compared with):
facet `t` gets `floor(facet_mass / total_mass * n)` samples for every facet
except the last, and the last facet gets `n` minus the sum already
allocated.  `masses` is the list of facet masses. -/
def specAllocation (total : ℚ) (n : ℕ) (masses : List ℚ) (t : ℕ) : ℕ :=
  if t + 1 = masses.length then
    n - ((List.range (masses.length - 1)).map
      (fun t' => (⌊masses.getD t' 0 / total * n⌋).toNat)).sum
  else (⌊masses.getD t 0 / total * n⌋).toNat

/-- Closed form of the per-facet count computed by the allocation loop of
`BoxSurface.sample` when no division by zero occurs: facet `t` of a facet
list with the given `masses` receives `int(masses[t] / total * n)` samples
unless it is the last facet, which receives `n` minus the write position
reached (`prev` plus all non-last counts before `t`).  Proved equal to the
loop's behaviour in `sampleLoop_eq_blocks` below. -/
def loopCount (total : ℚ) (n : ℕ) (masses : List ℚ) (prev t : ℕ) : ℕ :=
  if t + 1 = masses.length then
    n - (prev + ((List.range t).map (fun t' =>
      (pyInt (masses.getD t' 0 / total * n)).toNat)).sum)
  else (pyInt (masses.getD t 0 / total * n)).toNat

end Regions

namespace Regions

/-! ### Helper lemmas -/

lemma getD_map_range {α : Type} (f : ℕ → α) {k t : ℕ} (ht : t < k) (d : α) :
    ((List.range k).map f).getD t d = f t := by
  rw [List.getD_eq_getElem _ _ (by simpa using ht)]
  simp

lemma pyInt_of_nonneg {q : ℚ} (h : 0 ≤ q) : pyInt q = ⌊q⌋ :=
  if_neg (not_lt.2 h)

lemma pyInt_toNat_cast_le {q : ℚ} (h : 0 ≤ q) : ((pyInt q).toNat : ℚ) ≤ q := by
  rw [pyInt_of_nonneg h]
  have h0 : (0 : ℤ) ≤ ⌊q⌋ := Int.floor_nonneg.2 h
  have h1 : ((⌊q⌋.toNat : ℤ) : ℚ) ≤ q := by
    rw [Int.toNat_of_nonneg h0]
    exact Int.floor_le q
  exact_mod_cast h1

lemma pyInt_toNat_eq_floor_toNat {q : ℚ} (h : 0 ≤ q) :
    (pyInt q).toNat = (⌊q⌋).toNat := by rw [pyInt_of_nonneg h]

lemma box_mass_nonneg (b : Box) : 0 ≤ b.get_mass := by
  apply List.prod_nonneg
  intro a ha
  rw [List.mem_map] at ha
  obtain ⟨x, -, rfl⟩ := ha
  exact abs_nonneg x

lemma facet_mass_nonneg (s : OrthogonalSurface) :
    0 ≤ s.get_mass := by
  apply List.prod_nonneg
  intro a ha
  rw [List.mem_map] at ha
  obtain ⟨x, -, rfl⟩ := ha
  exact abs_nonneg x

lemma total_mass_nonneg (bs : BoxSurface) : 0 ≤ bs.get_mass := by
  apply List.sum_nonneg
  intro a ha
  rw [List.mem_map] at ha
  obtain ⟨s, -, rfl⟩ := ha
  exact facet_mass_nonneg s

lemma list_map_range_sum {M : Type} [AddCommMonoid M] (f : ℕ → M) (k : ℕ) :
    ((List.range k).map f).sum = ∑ i in Finset.range k, f i := by
  induction k with
  | zero => simp
  | succ k ih =>
      rw [List.range_succ, List.map_append, List.sum_append,
        Finset.sum_range_succ, ih]
      simp

lemma list_prod_eq_prod_range (A : List ℚ) :
    A.prod = ∏ j in Finset.range A.length, A.getD j 0 := by
  induction A with
  | nil => simp
  | cons a A ih =>
      rw [List.prod_cons, List.length_cons, Finset.prod_range_succ']
      simp only [List.getD_cons_succ, List.getD_cons_zero, ih]
      exact (mul_comm _ _)

/-- The mass of an `OrthogonalSurface` built by `make` is the product of the
absolute bound differences of the (N-1)-length argument vectors: erasing the
inserted index recovers them. -/
lemma OrthogonalSurface.get_mass_make (ub lb : List ℚ) (off : ℚ) (i : ℕ)
    (side : Side) :
    (OrthogonalSurface.make ub lb off i side).get_mass =
      ((List.zipWith (fun u l => u - l) ub lb).map (fun x => |x|)).prod := by
  unfold OrthogonalSurface.make OrthogonalSurface.get_mass
  simp [List.eraseIdx_insertIdx]

end Regions

namespace Regions

lemma zipWith_eraseIdx {α β γ : Type} (f : α → β → γ) :
    ∀ (u : List α) (l : List β) (i : ℕ),
      List.zipWith f (u.eraseIdx i) (l.eraseIdx i) =
        (List.zipWith f u l).eraseIdx i
  | [], l, i => by simp
  | a :: u, [], i => by simp
  | a :: u, b :: l, 0 => by simp
  | a :: u, b :: l, i + 1 => by
      simp only [List.eraseIdx_cons_succ, List.zipWith_cons_cons]
      rw [zipWith_eraseIdx f u l i]

lemma eraseIdx_map {α β : Type} (g : α → β) :
    ∀ (l : List α) (i : ℕ), (l.map g).eraseIdx i = (l.eraseIdx i).map g
  | [], i => by simp
  | a :: l, 0 => by simp
  | a :: l, i + 1 => by
      simp only [List.map_cons, List.eraseIdx_cons_succ]
      rw [eraseIdx_map g l i]

lemma insertIdx_eraseIdx_eq_set {α : Type} :
    ∀ (l : List α) (i : ℕ) (x : α), i < l.length →
      (l.eraseIdx i).insertIdx i x = l.set i x
  | [], i, x, h => by simp at h
  | a :: l, 0, x, _ => by simp
  | a :: l, i + 1, x, h => by
      simp only [List.eraseIdx_cons_succ, List.insertIdx_succ_cons,
        List.set_cons_succ]
      rw [insertIdx_eraseIdx_eq_set l i x (by simpa using h)]

lemma set_getD_self {α : Type} [Inhabited α] :
    ∀ (l : List α) (i : ℕ), i < l.length → l.set i (l.getD i default) = l
  | [], i, h => by simp at h
  | a :: l, 0, _ => by simp
  | a :: l, i + 1, h => by
      simp only [List.getD_cons_succ, List.set_cons_succ]
      rw [set_getD_self l i (by simpa using h)]

lemma getD_set_self {α : Type} :
    ∀ (l : List α) (i : ℕ) (x d : α), i < l.length →
      (l.set i x).getD i d = x
  | [], i, x, d, h => by simp at h
  | a :: l, 0, x, d, _ => by simp
  | a :: l, i + 1, x, d, h => by
      simp only [List.set_cons_succ, List.getD_cons_succ]
      exact getD_set_self l i x d (by simpa using h)

lemma getD_set_ne {α : Type} :
    ∀ (l : List α) (i a : ℕ) (x d : α), a ≠ i →
      (l.set i x).getD a d = l.getD a d
  | [], i, a, x, d, _ => by simp
  | b :: l, 0, 0, x, d, h => absurd rfl h
  | b :: l, 0, a + 1, x, d, _ => by simp
  | b :: l, i + 1, 0, x, d, _ => by simp
  | b :: l, i + 1, a + 1, x, d, h => by
      simp only [List.set_cons_succ, List.getD_cons_succ]
      exact getD_set_ne l i a x d (by omega)

lemma range_succ_erase_zero (n : ℕ) :
    (Finset.range (n + 1)).erase 0 = Finset.image Nat.succ (Finset.range n) := by
  ext j
  simp only [Finset.mem_erase, Finset.mem_range, Finset.mem_image]
  constructor
  · rintro ⟨h0, hn⟩
    exact ⟨j - 1, by omega, by omega⟩
  · rintro ⟨m, hm, rfl⟩
    omega

lemma range_succ_erase_succ (n i : ℕ) (_h : i < n) :
    (Finset.range (n + 1)).erase (i + 1) =
      insert 0 (Finset.image Nat.succ ((Finset.range n).erase i)) := by
  ext j
  simp only [Finset.mem_erase, Finset.mem_range, Finset.mem_insert,
    Finset.mem_image]
  constructor
  · rintro ⟨hne, hlt⟩
    rcases Nat.eq_zero_or_pos j with h0 | hpos
    · exact Or.inl h0
    · exact Or.inr ⟨j - 1, ⟨by omega, by omega⟩, by omega⟩
  · rintro (rfl | ⟨m, ⟨hm1, hm2⟩, rfl⟩) <;> omega

lemma prod_eraseIdx_finset :
    ∀ (A : List ℚ) (i : ℕ), i < A.length →
      (A.eraseIdx i).prod =
        ∏ j in (Finset.range A.length).erase i, A.getD j 0
  | [], i, h => by simp at h
  | a :: A, 0, _ => by
      rw [List.eraseIdx_cons_zero, List.length_cons, range_succ_erase_zero,
        Finset.prod_image (fun x _ y _ h => Nat.succ_injective h)]
      simp only [Nat.succ_eq_add_one, List.getD_cons_succ]
      exact list_prod_eq_prod_range A
  | a :: A, i + 1, h => by
      have hi : i < A.length := by simpa using h
      rw [List.eraseIdx_cons_succ, List.prod_cons, List.length_cons,
        range_succ_erase_succ _ _ hi,
        Finset.prod_insert (by simp),
        Finset.prod_image (fun x _ y _ h => Nat.succ_injective h)]
      simp only [Nat.succ_eq_add_one, List.getD_cons_succ, List.getD_cons_zero]
      rw [prod_eraseIdx_finset A i hi]

lemma flatMap_pair_length {α : Type} (f g : ℕ → α) (k : ℕ) :
    ((List.range k).flatMap (fun i => [f i, g i])).length = 2 * k := by
  induction k with
  | zero => simp
  | succ k ih =>
      rw [List.range_succ, List.flatMap_append, List.length_append, ih]
      simp
      omega

lemma flatMap_pair_getD_even {α : Type} (f g : ℕ → α) (d : α) :
    ∀ (k i : ℕ), i < k →
      ((List.range k).flatMap (fun i => [f i, g i])).getD (2 * i) d = f i := by
  intro k
  induction k with
  | zero => omega
  | succ k ih =>
      intro i hi
      rw [List.range_succ, List.flatMap_append]
      rcases Nat.lt_or_ge i k with h | h
      · rw [List.getD_append _ _ _ _ (by rw [flatMap_pair_length]; omega)]
        exact ih i h
      · have hik : i = k := by omega
        subst hik
        rw [List.getD_append_right _ _ _ _ (by rw [flatMap_pair_length])]
        rw [flatMap_pair_length]
        simp [Nat.sub_self]

lemma flatMap_pair_getD_odd {α : Type} (f g : ℕ → α) (d : α) :
    ∀ (k i : ℕ), i < k →
      ((List.range k).flatMap (fun i => [f i, g i])).getD (2 * i + 1) d = g i := by
  intro k
  induction k with
  | zero => omega
  | succ k ih =>
      intro i hi
      rw [List.range_succ, List.flatMap_append]
      rcases Nat.lt_or_ge i k with h | h
      · rw [List.getD_append _ _ _ _ (by rw [flatMap_pair_length]; omega)]
        exact ih i h
      · have hik : i = k := by omega
        subst hik
        rw [List.getD_append_right _ _ _ _ (by rw [flatMap_pair_length]; omega)]
        rw [flatMap_pair_length]
        have h1 : 2 * i + 1 - 2 * i = 1 := by omega
        rw [h1]
        simp

lemma sum_range_getD_eq_take (l : List ℚ) :
    ∀ (j : ℕ), j ≤ l.length →
      ((List.range j).map (fun t => l.getD t 0)).sum = (l.take j).sum := by
  intro j
  induction j with
  | zero => simp
  | succ j ih =>
      intro hj
      have hj' : j < l.length := by omega
      rw [List.range_succ, List.map_append, List.sum_append, ih (by omega),
        List.sum_take_succ _ _ hj']
      simp [List.getElem?_eq_getElem hj']

lemma sum_range_getD_le (l : List ℚ) (hpos : ∀ a ∈ l, 0 ≤ a) (j : ℕ)
    (hj : j ≤ l.length) :
    ((List.range j).map (fun t => l.getD t 0)).sum ≤ l.sum := by
  rw [sum_range_getD_eq_take l j hj]
  have := List.sum_take_add_sum_drop l j
  have hd : 0 ≤ (l.drop j).sum :=
    List.sum_nonneg (fun a ha => hpos a (List.mem_of_mem_drop ha))
  linarith

end Regions

namespace Regions

/-! ### Facet structure of `BoxSurface.make` -/

lemma BoxSurface.surfaces_length (u l : List ℚ) :
    (BoxSurface.make u l).surfaces.length = 2 * u.length :=
  flatMap_pair_length _ _ _

lemma BoxSurface.surfaces_getD_even (u l : List ℚ) (i : ℕ) (hi : i < u.length) :
    (BoxSurface.make u l).surfaces.getD (2 * i) default =
      OrthogonalSurface.make (u.eraseIdx i) (l.eraseIdx i) (u.getD i 0) i
        Side.top :=
  flatMap_pair_getD_even _ _ _ _ _ hi

lemma BoxSurface.surfaces_getD_odd (u l : List ℚ) (i : ℕ) (hi : i < u.length) :
    (BoxSurface.make u l).surfaces.getD (2 * i + 1) default =
      OrthogonalSurface.make (u.eraseIdx i) (l.eraseIdx i) (l.getD i 0) i
        Side.bottom :=
  flatMap_pair_getD_odd _ _ _ _ _ hi

/-! ### The allocation loop -/

lemma loopCount_singleton (total : ℚ) (n : ℕ) (m : ℚ) (prev : ℕ) :
    loopCount total n [m] prev 0 = n - prev := by
  simp [loopCount]

lemma loopCount_cons_zero (total : ℚ) (n : ℕ) (m0 m1 : ℚ) (ms : List ℚ)
    (prev : ℕ) :
    loopCount total n (m0 :: m1 :: ms) prev 0 =
      (pyInt (m0 / total * n)).toNat := by
  simp [loopCount]

lemma loopCount_cons_succ (total : ℚ) (n : ℕ) (m0 : ℚ) (ms : List ℚ)
    (prev t : ℕ) :
    loopCount total n (m0 :: ms) prev (t + 1) =
      loopCount total n ms (prev + (pyInt (m0 / total * n)).toNat) t := by
  unfold loopCount
  have hsum : ((List.range (t + 1)).map (fun t' =>
      (pyInt ((m0 :: ms).getD t' 0 / total * n)).toNat)).sum =
        (pyInt (m0 / total * n)).toNat + ((List.range t).map (fun t' =>
          (pyInt (ms.getD t' 0 / total * n)).toNat)).sum := by
    rw [List.range_succ_eq_map, List.map_cons, List.map_map, List.sum_cons]
    congr 1
  by_cases h : t + 1 = ms.length
  · rw [if_pos (by simp [h]), if_pos h, hsum]
    omega
  · rw [if_neg (by simp [h]), if_neg h]
    simp

lemma sampleLoop_eq_none_iff (total : ℚ) (n : ℕ) (unit : ℕ → ℕ → ℕ → ℚ) :
    ∀ (surfs : List OrthogonalSurface) (j prev : ℕ),
      BoxSurface.sampleLoop total n unit surfs j prev = none ↔
        (total = 0 ∧ 2 ≤ surfs.length)
  | [], j, prev => by simp [BoxSurface.sampleLoop]
  | [s], j, prev => by simp [BoxSurface.sampleLoop]
  | s :: s' :: rest, j, prev => by
      rw [BoxSurface.sampleLoop]
      by_cases h : total = 0
      · simp only [if_pos h]
        simp [h]
      · rw [if_neg h]
        rcases hrec : BoxSurface.sampleLoop total n unit (s' :: rest) (j + 1)
            (prev + (pyInt (s.get_mass / total * n)).toNat) with _ | bl
        · exact absurd ((sampleLoop_eq_none_iff total n unit (s' :: rest)
            (j + 1) _).1 hrec).1 h
        · simp [h]

lemma sampleLoop_eq_blocks (total : ℚ) (n : ℕ) (unit : ℕ → ℕ → ℕ → ℚ)
    (htot : total ≠ 0) :
    ∀ (surfs : List OrthogonalSurface) (j prev : ℕ),
      BoxSurface.sampleLoop total n unit surfs j prev =
        some ((List.range surfs.length).map (fun t =>
          (surfs.getD t default).sample
            (loopCount total n (surfs.map OrthogonalSurface.get_mass) prev t)
            (unit (j + t))))
  | [], j, prev => by simp [BoxSurface.sampleLoop]
  | [s], j, prev => by
      rw [BoxSurface.sampleLoop]
      have h1 : List.range ([s] : List OrthogonalSurface).length = [0] := by
        simp [List.range_succ]
      rw [h1, List.map_cons, List.map_nil]
      rw [show ([s].map OrthogonalSurface.get_mass) = [s.get_mass] from rfl]
      rw [loopCount_singleton]
      simp
  | s :: s' :: rest, j, prev => by
      rw [BoxSurface.sampleLoop, if_neg htot,
        sampleLoop_eq_blocks total n unit htot (s' :: rest) (j + 1)
          (prev + (pyInt (s.get_mass / total * n)).toNat)]
      dsimp only
      congr 1
      rw [show ((s :: s' :: rest) : List OrthogonalSurface).length =
          (s' :: rest).length + 1 from rfl,
        List.range_succ_eq_map]
      conv_rhs => rw [List.map_cons, List.map_map]
      congr 1
      apply List.map_congr_left
      intro t _
      simp only [Function.comp_apply, List.getD_cons_succ, Nat.succ_eq_add_one]
      conv_rhs => rw [List.map_cons, loopCount_cons_succ]
      rw [show j + (t + 1) = j + 1 + t from by omega]

end Regions

namespace Regions

lemma box_sample_length (b : Box) (n : ℕ) (unit : ℕ → ℕ → ℚ) :
    (b.sample n unit).length = n := by
  simp [Box.sample]

lemma facet_sample_length (s : OrthogonalSurface) (n : ℕ)
    (unit : ℕ → ℕ → ℚ) : (s.sample n unit).length = n := by
  simp [OrthogonalSurface.sample, Box.sample]

lemma sum_count_le (masses : List ℚ) (n : ℕ) (total : ℚ) (htot : 0 < total)
    (hpos : ∀ a ∈ masses, 0 ≤ a) (hle : masses.sum ≤ total) (j : ℕ)
    (hj : j ≤ masses.length) :
    ((List.range j).map (fun t =>
      (pyInt (masses.getD t 0 / total * n)).toNat)).sum ≤ n := by
  have hq : ∀ t, t < j → (0 : ℚ) ≤ masses.getD t 0 := by
    intro t ht
    have htlen : t < masses.length := lt_of_lt_of_le ht hj
    rw [masses.getD_eq_getElem 0 htlen]
    exact hpos _ (masses.getElem_mem htlen)
  have h1 : (((List.range j).map (fun t =>
      (pyInt (masses.getD t 0 / total * n)).toNat)).sum : ℚ) ≤
        ((List.range j).map
          (fun t => masses.getD t 0 / total * (n : ℚ))).sum := by
    rw [list_map_range_sum, Nat.cast_sum, list_map_range_sum]
    apply Finset.sum_le_sum
    intro t ht
    rw [Finset.mem_range] at ht
    exact pyInt_toNat_cast_le
      (mul_nonneg (div_nonneg (hq t ht) htot.le) (Nat.cast_nonneg n))
  have h2 : ((List.range j).map
      (fun t => masses.getD t 0 / total * (n : ℚ))).sum ≤ (n : ℚ) := by
    rw [list_map_range_sum]
    have hfac : ∀ t, masses.getD t 0 / total * (n : ℚ) =
        masses.getD t 0 * ((n : ℚ) / total) := fun t => by ring
    calc ∑ t in Finset.range j, masses.getD t 0 / total * (n : ℚ)
        = (∑ t in Finset.range j, masses.getD t 0) * ((n : ℚ) / total) := by
          rw [Finset.sum_mul]
          exact Finset.sum_congr rfl (fun t _ => hfac t)
      _ ≤ total * ((n : ℚ) / total) := by
          apply mul_le_mul_of_nonneg_right _
            (div_nonneg (Nat.cast_nonneg n) htot.le)
          calc ∑ t in Finset.range j, masses.getD t 0
              = ((List.range j).map (fun t => masses.getD t 0)).sum :=
                (list_map_range_sum _ _).symm
            _ ≤ masses.sum := sum_range_getD_le masses hpos j hj
            _ ≤ total := hle
      _ = (n : ℚ) := by field_simp
  have h3 := le_trans h1 h2
  exact_mod_cast h3

lemma loopCount_of_nonlast (total : ℚ) (n : ℕ) (masses : List ℚ)
    (prev t : ℕ) (ht : t + 1 < masses.length) :
    loopCount total n masses prev t =
      (pyInt (masses.getD t 0 / total * n)).toNat := by
  unfold loopCount
  rw [if_neg (by omega)]

lemma loopCount_last (total : ℚ) (n : ℕ) (masses : List ℚ) (prev : ℕ)
    (h : 1 ≤ masses.length) :
    loopCount total n masses prev (masses.length - 1) =
      n - (prev + ((List.range (masses.length - 1)).map (fun t' =>
        (pyInt (masses.getD t' 0 / total * n)).toNat)).sum) := by
  unfold loopCount
  rw [if_pos (by omega)]

lemma loopCount_total_sum (total : ℚ) (n : ℕ) (masses : List ℚ)
    (hlen : 1 ≤ masses.length) (htot : 0 < total)
    (hpos : ∀ a ∈ masses, 0 ≤ a) (hle : masses.sum ≤ total) :
    ((List.range masses.length).map (loopCount total n masses 0)).sum = n := by
  have hS := sum_count_le masses n total htot hpos hle (masses.length - 1)
    (by omega)
  have hsplit : List.range masses.length =
      List.range (masses.length - 1) ++ [masses.length - 1] := by
    rw [← List.range_succ]
    congr 1
    omega
  rw [hsplit, List.map_append, List.sum_append]
  have hpre : (List.range (masses.length - 1)).map
      (loopCount total n masses 0) =
        (List.range (masses.length - 1)).map (fun t =>
          (pyInt (masses.getD t 0 / total * n)).toNat) := by
    apply List.map_congr_left
    intro t ht
    rw [List.mem_range] at ht
    exact loopCount_of_nonlast _ _ _ _ _ (by omega)
  rw [hpre]
  simp only [List.map_cons, List.map_nil, List.sum_cons, List.sum_nil]
  rw [loopCount_last _ _ _ _ hlen]
  omega

lemma BoxSurface.surfaces_ne_nil_of_mass_pos (bs : BoxSurface)
    (htot : 0 < bs.get_mass) : 1 ≤ bs.surfaces.length := by
  by_contra hcon
  push_neg at hcon
  have hnil : bs.surfaces = [] := List.eq_nil_of_length_eq_zero (by omega)
  rw [BoxSurface.get_mass, hnil] at htot
  simp at htot

end Regions

namespace Regions

lemma masses_getD_nonneg (surfs : List OrthogonalSurface) (t : ℕ) :
    0 ≤ (surfs.map OrthogonalSurface.get_mass).getD t 0 := by
  by_cases ht : t < (surfs.map OrthogonalSurface.get_mass).length
  · rw [(surfs.map OrthogonalSurface.get_mass).getD_eq_getElem 0 ht]
    have hmem := (surfs.map OrthogonalSurface.get_mass).getElem_mem ht
    rw [List.mem_map] at hmem
    obtain ⟨s, -, heq⟩ := hmem
    rw [← heq]
    exact facet_mass_nonneg s
  · rw [(surfs.map OrthogonalSurface.get_mass).getD_eq_default 0 (by omega)]

lemma blocks_flatten_length (bs : BoxSurface) (n : ℕ) (unit : ℕ → ℕ → ℕ → ℚ)
    (htot : 0 < bs.get_mass) :
    (((List.range bs.surfaces.length).map (fun t =>
      (bs.surfaces.getD t default).sample
        (loopCount bs.get_mass n (bs.surfaces.map OrthogonalSurface.get_mass)
          0 t)
        (unit t))).flatten).length = n := by
  rw [List.length_flatten, List.map_map]
  have hcomp : (List.length ∘ fun t =>
      (bs.surfaces.getD t default).sample
        (loopCount bs.get_mass n (bs.surfaces.map OrthogonalSurface.get_mass)
          0 t) (unit t)) =
      loopCount bs.get_mass n (bs.surfaces.map OrthogonalSurface.get_mass) 0 :=
    funext (fun t => facet_sample_length _ _ _)
  rw [hcomp]
  rw [show bs.surfaces.length =
      (bs.surfaces.map OrthogonalSurface.get_mass).length from
    (List.length_map _ _).symm]
  apply loopCount_total_sum
  · rw [List.length_map]
    exact bs.surfaces_ne_nil_of_mass_pos htot
  · exact htot
  · intro a ha
    rw [List.mem_map] at ha
    obtain ⟨s, -, rfl⟩ := ha
    exact facet_mass_nonneg s
  · exact le_of_eq rfl

lemma BoxSurface.sample_eq_blocks_flatten (bs : BoxSurface) (n : ℕ)
    (unit : ℕ → ℕ → ℕ → ℚ) (htot : 0 < bs.get_mass) :
    bs.sample n unit = some (((List.range bs.surfaces.length).map (fun t =>
      (bs.surfaces.getD t default).sample
        (loopCount bs.get_mass n (bs.surfaces.map OrthogonalSurface.get_mass)
          0 t)
        (unit t))).flatten) := by
  unfold BoxSurface.sample
  rw [sampleLoop_eq_blocks bs.get_mass n unit (ne_of_gt htot) bs.surfaces 0 0]
  have hzero : (fun t => (bs.surfaces.getD t default).sample
      (loopCount bs.get_mass n (bs.surfaces.map OrthogonalSurface.get_mass)
        0 t) (unit (0 + t))) =
      (fun t => (bs.surfaces.getD t default).sample
        (loopCount bs.get_mass n (bs.surfaces.map OrthogonalSurface.get_mass)
          0 t) (unit t)) := by
    funext t
    rw [Nat.zero_add]
  rw [Option.map_some', hzero, blocks_flatten_length bs n unit htot]
  simp

lemma loopCount_eq_specAllocation (total : ℚ) (n : ℕ) (masses : List ℚ)
    (htot : 0 ≤ total) (hpos : ∀ t : ℕ, (0 : ℚ) ≤ masses.getD t 0) (t : ℕ) :
    loopCount total n masses 0 t = specAllocation total n masses t := by
  have hdiv : ∀ t' : ℕ, (0 : ℚ) ≤ masses.getD t' 0 / total * n := fun t' =>
    mul_nonneg (div_nonneg (hpos t') htot) (Nat.cast_nonneg n)
  unfold loopCount specAllocation
  by_cases h : t + 1 = masses.length
  · rw [if_pos h, if_pos h]
    have ht : t = masses.length - 1 := by omega
    subst ht
    rw [Nat.zero_add]
    congr 1
    apply congrArg
    apply List.map_congr_left
    intro t' _
    rw [pyInt_toNat_eq_floor_toNat (hdiv t')]
  · rw [if_neg h, if_neg h]
    rw [pyInt_toNat_eq_floor_toNat (hdiv t)]

end Regions

namespace Regions

lemma insertIdx_getD_self {α : Type} (l : List α) (i : ℕ) (x d : α)
    (hi : i ≤ l.length) : (l.insertIdx i x).getD i d = x := by
  rw [(l.insertIdx i x).getD_eq_getElem d
    (by rw [List.length_insertIdx i l hi]; omega)]
  exact List.getElem_insertIdx_self l x i hi

lemma argmin_spec : ∀ (l : List ℚ), l ≠ [] → isFirstMin l (argmin l)
  | [], h => absurd rfl h
  | [x], _ => by
      refine ⟨by simp [argmin], ?_, ?_⟩
      · intro j hj
        have hj0 : j = 0 := by simpa using hj
        subst hj0
        simp [argmin]
      · intro j hj
        simp [argmin] at hj
  | x :: y :: rest, _ => by
      obtain ⟨ih1, ih2, ih3⟩ := argmin_spec (y :: rest) (by simp)
      by_cases hx : x ≤ (y :: rest).getD (argmin (y :: rest)) 0
      · rw [show argmin (x :: y :: rest) = 0 from by rw [argmin, if_pos hx]]
        refine ⟨by simp, ?_, ?_⟩
        · intro j hj
          cases j with
          | zero => simp
          | succ j' =>
              simp only [List.getD_cons_zero, List.getD_cons_succ]
              exact le_trans hx (ih2 j' (by simpa using hj))
        · intro j hj
          omega
      · rw [show argmin (x :: y :: rest) = argmin (y :: rest) + 1 from by
          rw [argmin, if_neg hx]]
        push_neg at hx
        refine ⟨by simpa using ih1, ?_, ?_⟩
        · intro j hj
          cases j with
          | zero =>
              simp only [List.getD_cons_succ, List.getD_cons_zero]
              exact le_of_lt hx
          | succ j' =>
              simp only [List.getD_cons_succ]
              exact ih2 j' (by simpa using hj)
        · intro j hj
          cases j with
          | zero =>
              simp only [List.getD_cons_succ, List.getD_cons_zero]
              exact hx
          | succ j' =>
              simp only [List.getD_cons_succ]
              exact ih3 j' (by omega)

lemma filter_range_eq_singleton (k m : ℕ) (p : ℕ → Bool) (hm : m < k)
    (hp : ∀ a, a < k → (p a = true ↔ a = m)) :
    (List.range k).filter p = [m] := by
  induction k with
  | zero => omega
  | succ k ih =>
      rw [List.range_succ, List.filter_append]
      rcases Nat.lt_or_ge m k with h | h
      · rw [ih h (fun a ha => hp a (by omega))]
        have hpk : p k = false := by
          cases hb : p k with
          | false => rfl
          | true => exact absurd ((hp k (by omega)).1 hb) (by omega)
        simp [hpk]
      · have hmk : m = k := by omega
        subst hmk
        have hpre : (List.range m).filter p = [] := by
          rw [List.filter_eq_nil_iff]
          intro a ha
          rw [List.mem_range] at ha
          rw [hp a (by omega)]
          omega
        have hpm : p m = true := (hp m (by omega)).2 rfl
        rw [hpre]
        simp [hpm]

lemma absdiff_getD (u l : List ℚ) (hlen : u.length = l.length) (j : ℕ)
    (hj : j < u.length) :
    ((List.zipWith (fun u l => u - l) u l).map (fun x => |x|)).getD j 0 =
      |u.getD j 0 - l.getD j 0| := by
  have hz : j < (List.zipWith (fun u l => u - l) u l).length := by
    rw [List.length_zipWith]
    omega
  rw [((List.zipWith (fun u l => u - l) u l).map
    (fun x => |x|)).getD_eq_getElem 0 (by rw [List.length_map]; exact hz)]
  rw [List.getElem_map, List.getElem_zipWith]
  rw [u.getD_eq_getElem 0 hj, l.getD_eq_getElem 0 (by omega)]

lemma Box.get_mass_eq_prod (u l : List ℚ) (hlen : u.length = l.length) :
    (Box.mk u l).get_mass =
      ∏ j in Finset.range u.length, |u.getD j 0 - l.getD j 0| := by
  unfold Box.get_mass
  rw [list_prod_eq_prod_range]
  have hA : ((List.zipWith (fun u l => u - l) u l).map
      (fun x => |x|)).length = u.length := by
    rw [List.length_map, List.length_zipWith]
    omega
  rw [hA]
  exact Finset.prod_congr rfl
    (fun j hj => absdiff_getD u l hlen j (Finset.mem_range.1 hj))

lemma facet_mass_eq (u l : List ℚ) (i : ℕ) (hlen : u.length = l.length)
    (hi : i < u.length) (off : ℚ) (side : Side) :
    (OrthogonalSurface.make (u.eraseIdx i) (l.eraseIdx i) off i
      side).get_mass =
      ∏ j in (Finset.range u.length).erase i, |u.getD j 0 - l.getD j 0| := by
  rw [OrthogonalSurface.get_mass_make, zipWith_eraseIdx, ← eraseIdx_map]
  have hA : ((List.zipWith (fun u l => u - l) u l).map
      (fun x => |x|)).length = u.length := by
    rw [List.length_map, List.length_zipWith]
    omega
  rw [prod_eraseIdx_finset _ i (by rw [hA]; exact hi), hA]
  apply Finset.prod_congr rfl
  intro j hj
  rw [Finset.mem_erase, Finset.mem_range] at hj
  exact absdiff_getD u l hlen j hj.2

lemma sum_map_flatMap_pair {α : Type} (f g : ℕ → α) (h : α → ℚ) (k : ℕ) :
    (((List.range k).flatMap (fun i => [f i, g i])).map h).sum =
      ∑ i in Finset.range k, (h (f i) + h (g i)) := by
  induction k with
  | zero => simp
  | succ k ih =>
      rw [List.range_succ, List.flatMap_append, List.map_append,
        List.sum_append, ih, Finset.sum_range_succ]
      simp

lemma BoxSurface.get_mass_make_eq (u l : List ℚ) (hlen : u.length = l.length) :
    (BoxSurface.make u l).get_mass =
      ∑ i in Finset.range u.length,
        2 * ∏ j in (Finset.range u.length).erase i,
          |u.getD j 0 - l.getD j 0| := by
  unfold BoxSurface.get_mass BoxSurface.make
  rw [sum_map_flatMap_pair]
  apply Finset.sum_congr rfl
  intro i hi
  rw [Finset.mem_range] at hi
  rw [facet_mass_eq u l i hlen hi, facet_mass_eq u l i hlen hi]
  ring

end Regions

namespace Regions

lemma getD_replicate_lt {α : Type} (n a : ℕ) (x d : α) (ha : a < n) :
    (List.replicate n x).getD a d = x := by
  rw [(List.replicate n x).getD_eq_getElem d (by simpa using ha)]
  exact List.getElem_replicate _ _

lemma surfaces_getD_fields (u l : List ℚ) (j : ℕ) (hj : j < 2 * u.length) :
    ((BoxSurface.make u l).surfaces.getD j default).offset_dim = j / 2 ∧
    ((BoxSurface.make u l).surfaces.getD j default).inp_dim = u.length := by
  rcases Nat.even_or_odd j with ⟨i0, hji⟩ | ⟨i0, hji⟩
  · obtain rfl : j = 2 * i0 := by omega
    rw [show (2 * i0) / 2 = i0 from by omega]
    rw [BoxSurface.surfaces_getD_even u l i0 (by omega)]
    refine ⟨rfl, ?_⟩
    show (u.eraseIdx i0).length + 1 = u.length
    exact List.length_eraseIdx_add_one (by omega)
  · obtain rfl : j = 2 * i0 + 1 := by omega
    rw [show (2 * i0 + 1) / 2 = i0 from by omega]
    rw [BoxSurface.surfaces_getD_odd u l i0 (by omega)]
    refine ⟨rfl, ?_⟩
    show (u.eraseIdx i0).length + 1 = u.length
    exact List.length_eraseIdx_add_one (by omega)

lemma facet_sample_coords (u l : List ℚ) (i : ℕ) (hlen : u.length = l.length)
    (hi : i < u.length) (off : ℚ) (side : Side) (c : ℕ) (un : ℕ → ℕ → ℚ)
    (p : List ℚ)
    (hp : p ∈ (OrthogonalSurface.make (u.eraseIdx i) (l.eraseIdx i) off i
      side).sample c un) :
    ∃ r < c, p.getD i 0 = off ∧
      ∀ a < u.length, a ≠ i →
        p.getD a 0 = l.getD a 0 + un r a * (u.getD a 0 - l.getD a 0) := by
  have hero : (u.eraseIdx i).length = u.length - 1 := by
    have := List.length_eraseIdx_add_one hi
    omega
  have hi' : i ≤ (u.eraseIdx i).length := by omega
  have hil : i < l.length := by omega
  have hil' : i ≤ (l.eraseIdx i).length := by
    have := List.length_eraseIdx_add_one hil
    omega
  have hupper : ((u.eraseIdx i).insertIdx i (off)) = u.set i off := by
    rw [insertIdx_eraseIdx_eq_set u i off hi]
  have hlower : ((l.eraseIdx i).insertIdx i (off)) = l.set i off := by
    rw [insertIdx_eraseIdx_eq_set l i off hil]
  have hdim : (OrthogonalSurface.make (u.eraseIdx i) (l.eraseIdx i) off i
      side).surface.inp_dim = u.length := by
    show ((u.eraseIdx i).insertIdx i off).length = u.length
    rw [List.length_insertIdx i _ hi']
    omega
  rw [OrthogonalSurface.sample, Box.sample, List.mem_map] at hp
  obtain ⟨r, hr, hrow⟩ := hp
  rw [List.mem_range] at hr
  refine ⟨r, hr, ?_, ?_⟩
  · rw [← hrow, hdim]
    rw [getD_map_range _ hi]
    show ((l.eraseIdx i).insertIdx i off).getD i 0 +
      un r i * (((u.eraseIdx i).insertIdx i off).getD i 0 -
        ((l.eraseIdx i).insertIdx i off).getD i 0) = off
    rw [insertIdx_getD_self _ _ _ _ hi', insertIdx_getD_self _ _ _ _ hil']
    ring
  · intro a ha hane
    rw [← hrow, hdim]
    rw [getD_map_range _ ha]
    show ((l.eraseIdx i).insertIdx i off).getD a 0 +
      un r a * (((u.eraseIdx i).insertIdx i off).getD a 0 -
        ((l.eraseIdx i).insertIdx i off).getD a 0) =
      l.getD a 0 + un r a * (u.getD a 0 - l.getD a 0)
    rw [hupper, hlower, getD_set_ne u i a off 0 hane,
      getD_set_ne l i a off 0 hane]

lemma interior_coord_ne (lo hi t : ℚ) (hw : hi ≠ lo) (ht0 : 0 < t)
    (ht1 : t < 1) :
    lo + t * (hi - lo) ≠ hi ∧ lo + t * (hi - lo) ≠ lo := by
  constructor
  · intro heq
    have h2 : (t - 1) * (hi - lo) = 0 := by linear_combination heq
    rcases mul_eq_zero.1 h2 with h3 | h3
    · linarith
    · exact hw (by linarith)
  · intro heq
    have h2 : t * (hi - lo) = 0 := by linear_combination heq
    rcases mul_eq_zero.1 h2 with h3 | h3
    · linarith
    · exact hw (by linarith)

end Regions

namespace Regions

/-! ### Concrete evaluations used by witnesses and counterexamples -/

lemma unit_square_masses : ((BoxSurface.make ([1,1] : List ℚ) [0,0]).surfaces.map
    OrthogonalSurface.get_mass) = [1,1,1,1] := by
  simp [BoxSurface.make, List.range_succ, OrthogonalSurface.get_mass_make]

lemma unit_square_mass : (BoxSurface.make ([1,1] : List ℚ) [0,0]).get_mass = 4 := by
  rw [BoxSurface.get_mass, unit_square_masses]
  norm_num

lemma degenerate_mass : (BoxSurface.make ([0,0] : List ℚ) [0,0]).get_mass = 0 := by
  rw [BoxSurface.get_mass]
  simp [BoxSurface.make, List.range_succ, OrthogonalSurface.get_mass_make]

lemma one_dim_masses (a b : ℚ) :
    ((BoxSurface.make [a] [b]).surfaces.map OrthogonalSurface.get_mass) =
      [1, 1] := by
  simp [BoxSurface.make, List.range_succ, OrthogonalSurface.get_mass_make]

lemma one_dim_mass (a b : ℚ) : (BoxSurface.make [a] [b]).get_mass = 2 := by
  rw [BoxSurface.get_mass, one_dim_masses]
  norm_num

lemma zipWith_sub_replicate (k : ℕ) :
    List.zipWith (fun u l => u - l) (List.replicate k (1 : ℚ))
      (List.replicate k (0 : ℚ)) = List.replicate k 1 := by
  induction k with
  | zero => rfl
  | succ k ih =>
      simp only [List.replicate_succ, List.zipWith_cons_cons, ih]
      norm_num

/-! ### Claim theorems -/

/-- C7: `Box.get_mass` equals the product over all axes of
`|upper[i] - lower[i]|`; it is nonnegative, it is 0 whenever some axis has
zero width, it is positive when every axis has nonzero width regardless of
bound ordering, and it is 1 for the unit hypercube of any dimension. -/
theorem C7_box_mass (u l : List ℚ) (hlen : u.length = l.length) :
    (Box.mk u l).get_mass =
      (∏ j in Finset.range u.length, |u.getD j 0 - l.getD j 0|) ∧
    0 ≤ (Box.mk u l).get_mass ∧
    ((∃ i, i < u.length ∧ u.getD i 0 = l.getD i 0) →
      (Box.mk u l).get_mass = 0) ∧
    ((∀ i, i < u.length → u.getD i 0 ≠ l.getD i 0) →
      0 < (Box.mk u l).get_mass) ∧
    (∀ k : ℕ,
      (Box.mk (List.replicate k 1) (List.replicate k 0)).get_mass = 1) := by
  refine ⟨Box.get_mass_eq_prod u l hlen, box_mass_nonneg _, ?_, ?_, ?_⟩
  · rintro ⟨i, hi, heq⟩
    rw [Box.get_mass_eq_prod u l hlen]
    apply Finset.prod_eq_zero (Finset.mem_range.2 hi)
    rw [heq]
    simp
  · intro hne
    rw [Box.get_mass_eq_prod u l hlen]
    apply Finset.prod_pos
    intro i hi
    rw [Finset.mem_range] at hi
    exact abs_pos.2 (sub_ne_zero.2 (hne i hi))
  · intro k
    rw [Box.get_mass]
    show ((List.zipWith (fun u l => u - l) (List.replicate k (1 : ℚ))
      (List.replicate k (0 : ℚ))).map (fun x => |x|)).prod = 1
    rw [zipWith_sub_replicate, List.map_replicate]
    simp

theorem C7_witness :
    0 ≤ (Box.mk ([1, 1] : List ℚ) [0, 0]).get_mass ∧
    (Box.mk (List.replicate 3 (1 : ℚ)) (List.replicate 3 (0 : ℚ))).get_mass
      = 1 := by
  have h := C7_box_mass [1, 1] [0, 0] rfl
  exact ⟨h.2.1, h.2.2.2.2 3⟩

/-- C5: when the total facet mass of a `BoxSurface` is zero (and the box has
at least one axis, so the allocation loop reaches the division), the
proportional allocation `facet_mass / total_mass * n` divides by zero with
no guard, and `sample` produces no well-defined result (modelled as
`none`). -/
theorem C5_zero_mass_division (u l : List ℚ) (n : ℕ) (unit : ℕ → ℕ → ℕ → ℚ)
    (hdim : 1 ≤ u.length) (htot : (BoxSurface.make u l).get_mass = 0) :
    (BoxSurface.make u l).sample n unit = none := by
  rw [BoxSurface.sample, Option.map_eq_none']
  apply (sampleLoop_eq_none_iff _ _ _ _ _ _).2
  refine ⟨htot, ?_⟩
  rw [BoxSurface.surfaces_length]
  omega

theorem C5_witness :
    (BoxSurface.make ([0, 0] : List ℚ) [0, 0]).sample 1 (fun _ _ _ => 0) =
      none :=
  C5_zero_mass_division [0, 0] [0, 0] 1 (fun _ _ _ => 0) (by norm_num)
    degenerate_mass

/-- C9: every 1-dimensional `BoxSurface` has two facets, each of mass 1 (the
empty product), so its total mass is 2 for every choice of bounds; and a
`BoxSurface` of dimension at most 1 never reaches the division by zero, so
its `sample` always returns a result. -/
theorem C9_one_dimensional :
    (∀ a b : ℚ,
      ((BoxSurface.make [a] [b]).surfaces.map OrthogonalSurface.get_mass) =
        [1, 1] ∧
      (BoxSurface.make [a] [b]).get_mass = 2) ∧
    (∀ (u l : List ℚ) (n : ℕ) (unit : ℕ → ℕ → ℕ → ℚ),
      u.length = l.length → u.length ≤ 1 →
      (BoxSurface.make u l).sample n unit ≠ none) := by
  constructor
  · intro a b
    exact ⟨one_dim_masses a b, one_dim_mass a b⟩
  · intro u l n unit hlen hdim hcon
    rw [BoxSurface.sample, Option.map_eq_none'] at hcon
    have h2 := (sampleLoop_eq_none_iff _ _ _ _ _ _).1 hcon
    rw [BoxSurface.surfaces_length] at h2
    have hk : u.length = 1 := by omega
    obtain ⟨x, rfl⟩ := List.length_eq_one.1 hk
    have hl1 : l.length = 1 := by omega
    obtain ⟨y, rfl⟩ := List.length_eq_one.1 hl1
    have h3 := h2.1
    rw [one_dim_mass x y] at h3
    norm_num at h3

theorem C9_witness :
    (BoxSurface.make ([5] : List ℚ) [5]).get_mass = 2 ∧
    (BoxSurface.make ([5] : List ℚ) [5]).sample 3 (fun _ _ _ => 0) ≠ none :=
  ⟨(C9_one_dimensional.1 5 5).2,
    C9_one_dimensional.2 [5] [5] 3 (fun _ _ _ => 0) rfl (by norm_num)⟩

/-- C10: `BoxSurface` inherits `Box`'s membership test unchanged: any point
between the bounds on every axis is a member, even a point strictly inside
the box that lies on none of the facets — membership tests the solid box,
not the boundary (illustrated on the unit square with the interior point
`(1/2, 1/2)`). -/
theorem C10_membership_solid_box (u l : List ℚ) (p : List ℚ)
    (hin : ∀ i, i < u.length →
      l.getD i 0 ≤ p.getD i 0 ∧ p.getD i 0 ≤ u.getD i 0) :
    (BoxSurface.make u l).containsPt p = true ∧
    (BoxSurface.make u l).containsPt p =
      (BoxSurface.make u l).toBox.containsPt p ∧
    ((BoxSurface.make ([1,1] : List ℚ) [0,0]).containsPt [1/2, 1/2] = true ∧
      ∀ s ∈ (BoxSurface.make ([1,1] : List ℚ) [0,0]).surfaces,
        s.surface.containsPt [1/2, 1/2] = false) := by
  refine ⟨?_, rfl, ?_, ?_⟩
  · rw [BoxSurface.containsPt, show (BoxSurface.make u l).toBox = ⟨u, l⟩
      from rfl, Box.containsPt]
    rw [List.all_eq_true]
    intro i hi
    rw [List.mem_range] at hi
    rw [Bool.and_eq_true, decide_eq_true_eq, decide_eq_true_eq]
    exact hin i hi
  · simp [BoxSurface.containsPt, Box.containsPt, BoxSurface.make,
      List.range_succ]
    norm_num
  · intro s hs
    simp [BoxSurface.make, List.range_succ] at hs
    rcases hs with rfl | rfl | rfl | rfl <;>
        simp [OrthogonalSurface.make, Box.containsPt, List.range_succ] <;>
        norm_num

theorem C10_witness :
    (BoxSurface.make ([1,1] : List ℚ) [0,0]).containsPt [1/2, 1/2] = true :=
  (C10_membership_solid_box [1, 1] [0, 0] [1/2, 1/2]
    (by
      intro i hi
      have h2 : i < 2 := by simpa using hi
      interval_cases i <;> norm_num)).1

end Regions

namespace Regions

/-- C8 counterexample: the claim "no other operation raises (errors occur at
construction time only)" fails on the code: `BoxSurface.sample` on a
degenerate box of total mass 0 fails after construction (the unguarded
division by zero of the allocation loop), here at the concrete box with
`upper = lower = [0, 0]`. -/
theorem C8_counterexample :
    (BoxSurface.make ([0, 0] : List ℚ) [0, 0]).sample 2 (fun _ _ _ => 1/2) =
      none := by
  rw [BoxSurface.sample, Option.map_eq_none']
  apply (sampleLoop_eq_none_iff _ _ _ _ _ _).2
  refine ⟨degenerate_mass, ?_⟩
  rw [BoxSurface.surfaces_length]
  norm_num

/-- C8 (amended): `Box` construction fails with the dimension-mismatch error
iff the coerced bound arrays differ in shape or are not rank-1; on success
the common length is stored as the box's dimension; and the only
non-construction operation that can fail is `BoxSurface.sample`, which fails
exactly when the total facet mass is zero and the box has at least one axis
(the unguarded division by zero of C5) — all other operations are total. -/
theorem C8_construction_errors :
    (∀ a b : NDArray, (∃ e, Box.make a b = Except.error e) ↔
      (a.shape ≠ b.shape ∨ a.shape.length ≠ 1 ∨ b.shape.length ≠ 1)) ∧
    (∀ (a b : NDArray) (bx : Box), Box.make a b = Except.ok bx →
      a.wf → b.wf → bx.inp_dim = a.data.length ∧
        bx.inp_dim = b.data.length) ∧
    (∀ (u l : List ℚ) (n : ℕ) (unit : ℕ → ℕ → ℕ → ℚ),
      ((BoxSurface.make u l).sample n unit = none ↔
        ((BoxSurface.make u l).get_mass = 0 ∧ 1 ≤ u.length))) := by
  refine ⟨?_, ?_, ?_⟩
  · intro a b
    by_cases hc : a.shape ≠ b.shape ∨ a.shape.length ≠ 1
    · rw [Box.make, if_pos hc]
      constructor
      · intro _
        rcases hc with h | h
        · exact Or.inl h
        · exact Or.inr (Or.inl h)
      · intro _
        exact ⟨_, rfl⟩
    · rw [Box.make, if_neg hc]
      push_neg at hc
      constructor
      · rintro ⟨e, he⟩
        exact absurd he (by simp)
      · rintro (h | h | h)
        · exact absurd hc.1 h
        · exact absurd hc.2 h
        · rw [← hc.1] at h
          exact absurd hc.2 h
  · intro a b bx hok hwa hwb
    by_cases hc : a.shape ≠ b.shape ∨ a.shape.length ≠ 1
    · rw [Box.make, if_pos hc] at hok
      exact absurd hok (by simp)
    · rw [Box.make, if_neg hc] at hok
      push_neg at hc
      obtain rfl := (Except.ok.inj hok).symm
      rw [NDArray.wf] at hwa hwb
      constructor
      · rfl
      · show a.data.length = b.data.length
        rw [hwa, hwb, hc.1]
  · intro u l n unit
    rw [BoxSurface.sample, Option.map_eq_none', sampleLoop_eq_none_iff,
      BoxSurface.surfaces_length]
    constructor
    · rintro ⟨h1, h2⟩
      exact ⟨h1, by omega⟩
    · rintro ⟨h1, h2⟩
      exact ⟨h1, by omega⟩

theorem C8_witness :
    (∃ e, Box.make ⟨[2], [1, 2]⟩ ⟨[1], [3]⟩ = Except.error e) ∧
    (∀ bx : Box, Box.make ⟨[2], [1, 2]⟩ ⟨[2], [3, 4]⟩ = Except.ok bx →
      bx.inp_dim = 2) := by
  constructor
  · exact (C8_construction_errors.1 ⟨[2], [1, 2]⟩ ⟨[1], [3]⟩).mpr
      (Or.inl (by decide))
  · intro bx hok
    exact (C8_construction_errors.2.1 ⟨[2], [1, 2]⟩ ⟨[2], [3, 4]⟩ bx hok
      rfl rfl).1

end Regions

namespace Regions

/-- C2: a `BoxSurface` over `k` axes has exactly `2k` facets, with
`surfaces[2i]` the top facet of axis `i` at offset `upper[i]` and
`surfaces[2i+1]` the bottom facet at `lower[i]`; its mass is the sum of the
facet masses, which equals the sum over axes of twice the product of the
other axes' absolute widths; for the 3-D unit cube every facet has mass 1
and the total is 6. -/
theorem C2_facet_structure (u l : List ℚ) (hlen : u.length = l.length) :
    (BoxSurface.make u l).surfaces.length = 2 * u.length ∧
    (∀ i, i < u.length →
      ((BoxSurface.make u l).surfaces.getD (2 * i) default).offset_dim = i ∧
      ((BoxSurface.make u l).surfaces.getD (2 * i) default).side =
        Side.top ∧
      ((BoxSurface.make u l).surfaces.getD (2 * i) default).offset =
        u.getD i 0 ∧
      ((BoxSurface.make u l).surfaces.getD (2 * i + 1) default).offset_dim =
        i ∧
      ((BoxSurface.make u l).surfaces.getD (2 * i + 1) default).side =
        Side.bottom ∧
      ((BoxSurface.make u l).surfaces.getD (2 * i + 1) default).offset =
        l.getD i 0) ∧
    (BoxSurface.make u l).get_mass =
      ((BoxSurface.make u l).surfaces.map OrthogonalSurface.get_mass).sum ∧
    (BoxSurface.make u l).get_mass =
      (∑ i in Finset.range u.length,
        2 * ∏ j in (Finset.range u.length).erase i,
          |u.getD j 0 - l.getD j 0|) ∧
    ((BoxSurface.make ([1,1,1] : List ℚ) [0,0,0]).get_mass = 6 ∧
      ∀ s ∈ (BoxSurface.make ([1,1,1] : List ℚ) [0,0,0]).surfaces,
        s.get_mass = 1) := by
  refine ⟨BoxSurface.surfaces_length u l, ?_, rfl,
    BoxSurface.get_mass_make_eq u l hlen, ?_, ?_⟩
  · intro i hi
    rw [BoxSurface.surfaces_getD_even u l i hi,
      BoxSurface.surfaces_getD_odd u l i hi]
    exact ⟨rfl, rfl, rfl, rfl, rfl, rfl⟩
  · rw [BoxSurface.get_mass]
    simp [BoxSurface.make, List.range_succ, OrthogonalSurface.get_mass_make]
    norm_num
  · intro s hs
    simp [BoxSurface.make, List.range_succ] at hs
    rcases hs with rfl | rfl | rfl | rfl | rfl | rfl <;>
        simp [OrthogonalSurface.get_mass_make]

theorem C2_witness :
    (BoxSurface.make ([1,1] : List ℚ) [0,0]).surfaces.length = 4 ∧
    (BoxSurface.make ([1,1,1] : List ℚ) [0,0,0]).get_mass = 6 := by
  have h := C2_facet_structure [1, 1] [0, 0] rfl
  exact ⟨h.1, h.2.2.2.2.1⟩

/-- C4: the box embedded in an `OrthogonalSurface` has exactly the facet's
own full-dimension bound vectors, both pinned to `offset` at `offset_dim`
(zero width there); consequently every sampled point has coordinate exactly
`offset` on that axis and the uniform-draw value
`lower + u * (upper - lower)` on every axis. -/
theorem C4_embedded_box (ub lb : List ℚ) (off : ℚ) (i : ℕ) (side : Side)
    (hlen : ub.length = lb.length) (hi : i ≤ ub.length) :
    (OrthogonalSurface.make ub lb off i side).surface.upper_bounds =
      (OrthogonalSurface.make ub lb off i side).upper_bounds ∧
    (OrthogonalSurface.make ub lb off i side).surface.lower_bounds =
      (OrthogonalSurface.make ub lb off i side).lower_bounds ∧
    (OrthogonalSurface.make ub lb off i side).upper_bounds.getD i 0 = off ∧
    (OrthogonalSurface.make ub lb off i side).lower_bounds.getD i 0 = off ∧
    (∀ (n : ℕ) (unit : ℕ → ℕ → ℚ) (r : ℕ), r < n →
      (((OrthogonalSurface.make ub lb off i side).sample n unit).getD r
        []).getD i 0 = off ∧
      (∀ a, a < (OrthogonalSurface.make ub lb off i side).inp_dim →
        (((OrthogonalSurface.make ub lb off i side).sample n unit).getD r
          []).getD a 0 =
          (OrthogonalSurface.make ub lb off i side).lower_bounds.getD a 0 +
            unit r a *
              ((OrthogonalSurface.make ub lb off i
                side).upper_bounds.getD a 0 -
               (OrthogonalSurface.make ub lb off i
                side).lower_bounds.getD a 0))) := by
  have hil : i ≤ lb.length := by omega
  have hdim : (OrthogonalSurface.make ub lb off i side).surface.inp_dim =
      ub.length + 1 := by
    show (ub.insertIdx i off).length = ub.length + 1
    exact List.length_insertIdx i ub hi
  refine ⟨rfl, rfl, insertIdx_getD_self ub i off 0 hi,
    insertIdx_getD_self lb i off 0 hil, ?_⟩
  intro n unit r hr
  have hrow : ((OrthogonalSurface.make ub lb off i side).sample n
      unit).getD r [] =
      (List.range (ub.length + 1)).map (fun a =>
        (lb.insertIdx i off).getD a 0 + unit r a *
          ((ub.insertIdx i off).getD a 0 -
            (lb.insertIdx i off).getD a 0)) := by
    rw [OrthogonalSurface.sample, Box.sample, getD_map_range _ hr, hdim]
    rfl
  refine ⟨?_, ?_⟩
  · rw [hrow, getD_map_range _ (by omega)]
    rw [insertIdx_getD_self ub i off 0 hi, insertIdx_getD_self lb i off 0 hil]
    ring
  · intro a ha
    have ha' : a < ub.length + 1 := ha
    rw [hrow, getD_map_range _ ha']
    rfl

theorem C4_witness :
    (OrthogonalSurface.make [0] [0] 5 0 Side.top).upper_bounds.getD 0 0 =
      5 ∧
    (((OrthogonalSurface.make [0] [0] 5 0 Side.top).sample 1
      (fun _ _ => 1/2)).getD 0 []).getD 0 0 = 5 := by
  have h := C4_embedded_box [0] [0] 5 0 Side.top rfl (by norm_num)
  exact ⟨h.2.2.1, (h.2.2.2.2 1 (fun _ _ => 1/2) 0 (by norm_num)).1⟩

end Regions

namespace Regions

/-- C3: the callable returned by `get_normal_func` maps each point to the
normal of the facet with minimal `distance`, ties broken by first occurrence
in facet order (the behaviour of `np.argmin`); the returned normal is the
facet-level unit vector, `+1` at `offset_dim` for a top facet and `-1` for a
bottom facet, zero elsewhere, independent of the point's value; on the 2-D
unit square the point `(1/2, 1)` yields the normal `[0, 1]`. -/
theorem C3_normal_func (u l x : List ℚ) (hk : 1 ≤ u.length) (ds : List ℚ)
    (hds : ds = (BoxSurface.make u l).surfaces.map (fun s => s.distance x))
    (m : ℕ) (hm : m = argmin ds) (sm : OrthogonalSurface)
    (hsm : sm = (BoxSurface.make u l).surfaces.getD m default) :
    isFirstMin ds m ∧
    (∀ X : List (List ℚ),
      (BoxSurface.make u l).get_normal_func X = X.map (fun y =>
        ((BoxSurface.make u l).surfaces.getD
          (argmin ((BoxSurface.make u l).surfaces.map
            (fun s => s.distance y))) default).normal y)) ∧
    (∀ y : List ℚ, sm.normal x = sm.normal y) ∧
    (sm.normal x).getD sm.offset_dim 0 =
      (if sm.side = Side.top then 1 else -1) ∧
    (∀ a, a < sm.inp_dim → a ≠ sm.offset_dim →
      (sm.normal x).getD a 0 = 0) ∧
    (BoxSurface.make ([1,1] : List ℚ) [0,0]).get_normal_func [[1/2, 1]] =
      [[0, 1]] := by
  have hlen2 : ds.length = 2 * u.length := by
    rw [hds, List.length_map, BoxSurface.surfaces_length]
  have hne : ds ≠ [] := by
    intro hcon
    rw [hcon] at hlen2
    simp only [List.length_nil] at hlen2
    omega
  have hfirst : isFirstMin ds m := by
    rw [hm]
    exact argmin_spec ds hne
  have hmlt : m < 2 * u.length := by
    rw [← hlen2]
    exact hfirst.1
  have hfields := surfaces_getD_fields u l m hmlt
  have hoff : sm.offset_dim = m / 2 := by
    rw [hsm]
    exact hfields.1
  have hdim : sm.inp_dim = u.length := by
    rw [hsm]
    exact hfields.2
  refine ⟨hfirst, fun X => rfl, fun y => rfl, ?_, ?_, ?_⟩
  · rw [OrthogonalSurface.normal]
    exact getD_set_self _ _ _ _
      (by rw [List.length_replicate, hdim, hoff]; omega)
  · intro a ha hne2
    rw [OrthogonalSurface.normal]
    rw [getD_set_ne _ _ _ _ _ hne2]
    exact getD_replicate_lt _ _ _ _ ha
  · have hds2 : ((BoxSurface.make ([1,1] : List ℚ) [0,0]).surfaces.map
        (fun s => s.distance [1/2, 1])) = [1/2, 1/2, 0, 1] := by
      simp [BoxSurface.make, List.range_succ, OrthogonalSurface.distance,
        OrthogonalSurface.make]
      norm_num
    have hargmin : argmin [1/2, 1/2, 0, 1] = 2 := by
      norm_num [argmin]
    rw [BoxSurface.get_normal_func]
    simp only [List.map_cons, List.map_nil]
    rw [hds2, hargmin]
    simp [BoxSurface.make, List.range_succ, OrthogonalSurface.normal,
      OrthogonalSurface.make]

theorem C3_witness :
    (BoxSurface.make ([1,1] : List ℚ) [0,0]).get_normal_func [[1/2, 1]] =
      [[0, 1]] :=
  (C3_normal_func [1, 1] [0, 0] [1/2, 1] (by norm_num) _ rfl _ rfl _
    rfl).2.2.2.2.2

end Regions

namespace Regions

/-- C1: for a `BoxSurface` of positive total mass, `sample(n)` returns
exactly `n` points: every facet except the last receives
`floor(facet_mass / total_mass * n)` samples, the last facet receives
`n` minus the samples already allocated, and the per-facet blocks are
concatenated in facet order — so the allocation sums to exactly `n`
regardless of rounding. -/
theorem C1_sample_exact_allocation (u l : List ℚ) (n : ℕ)
    (unit : ℕ → ℕ → ℕ → ℚ) (_hlen : u.length = l.length)
    (htot : 0 < (BoxSurface.make u l).get_mass) :
    ∃ pts : List (List ℚ),
      (BoxSurface.make u l).sample n unit = some pts ∧
      pts.length = n ∧
      pts = ((List.range (2 * u.length)).map (fun t =>
        ((BoxSurface.make u l).surfaces.getD t default).sample
          (specAllocation (BoxSurface.make u l).get_mass n
            ((BoxSurface.make u l).surfaces.map OrthogonalSurface.get_mass)
            t)
          (unit t))).flatten := by
  refine ⟨_, BoxSurface.sample_eq_blocks_flatten _ n unit htot,
    blocks_flatten_length _ n unit htot, ?_⟩
  rw [BoxSurface.surfaces_length]
  apply congrArg
  apply List.map_congr_left
  intro t _
  rw [loopCount_eq_specAllocation _ _ _ htot.le (masses_getD_nonneg _)]

theorem C1_witness :
    ∃ pts : List (List ℚ),
      (BoxSurface.make ([1,1] : List ℚ) [0,0]).sample 5 (fun _ _ _ => 0) =
        some pts ∧ pts.length = 5 := by
  obtain ⟨pts, h1, h2, -⟩ := C1_sample_exact_allocation [1, 1] [0, 0] 5
    (fun _ _ _ => 0) rfl (by rw [unit_square_mass]; norm_num)
  exact ⟨pts, h1, h2⟩

/-- C6 counterexample: the claim that every sampled point has EXACTLY one
coordinate at a bound extreme is false on the code: `np.random.uniform`
includes its lower endpoint, so with all unit draws equal to 0 the unit
square's `sample(1)` returns the corner `(0, 0)`, which has both
coordinates at bound extremes. -/
theorem C6_counterexample :
    (BoxSurface.make ([1,1] : List ℚ) [0,0]).sample 1 (fun _ _ _ => 0) =
      some [[0, 0]] ∧
    ((List.range 2).filter (fun a =>
      decide (([0,0] : List ℚ).getD a 0 = ([1,1] : List ℚ).getD a 0 ∨
        ([0,0] : List ℚ).getD a 0 = ([0,0] : List ℚ).getD a 0))).length =
      2 := by
  constructor
  · rw [BoxSurface.sample_eq_blocks_flatten _ 1 _
      (by rw [unit_square_mass]; norm_num)]
    congr 1
    rw [unit_square_mass, unit_square_masses]
    rw [show (BoxSurface.make ([1,1] : List ℚ) [0,0]).surfaces.length = 4
      from by rw [BoxSurface.surfaces_length]; norm_num]
    have hc0 : loopCount 4 1 [1,1,1,1] 0 0 = 0 := by
      norm_num [loopCount, pyInt, Int.floor_eq_iff]
    have hc1 : loopCount 4 1 [1,1,1,1] 0 1 = 0 := by
      norm_num [loopCount, pyInt, Int.floor_eq_iff]
    have hc2 : loopCount 4 1 [1,1,1,1] 0 2 = 0 := by
      norm_num [loopCount, pyInt, Int.floor_eq_iff]
    have hc3 : loopCount 4 1 [1,1,1,1] 0 3 = 1 := by
      norm_num [loopCount, pyInt, List.range_succ, Int.floor_eq_iff]
    simp only [List.range_succ, List.range_zero, List.map_append,
      List.map_cons, List.map_nil, List.nil_append, List.cons_append]
    rw [hc0, hc1, hc2, hc3]
    simp [BoxSurface.make, List.range_succ, OrthogonalSurface.sample,
      Box.sample, Box.inp_dim, OrthogonalSurface.make]
  · simp [List.range_succ]

/-- C6 (amended): every point drawn from facet `j` of the allocation loop
has its facet-axis coordinate exactly at the corresponding bound extreme —
`upper[j/2]` for an even-indexed (top) facet, `lower[j/2]` for an
odd-indexed (bottom) facet — and that is the only coordinate at a bound
extreme provided the unit draws on the other axes lie strictly inside
`(0, 1)` and those axes have nonzero width.  The unconditional
"exactly one" of the original claim is refuted by `C6_counterexample`:
endpoint draws (included in `np.random.uniform`) can put further
coordinates at extremes. -/
theorem C6_sample_facet_extremes (u l : List ℚ) (n : ℕ)
    (unit : ℕ → ℕ → ℕ → ℚ) (hlen : u.length = l.length)
    (htot : 0 < (BoxSurface.make u l).get_mass) (j : ℕ)
    (hj : j < (BoxSurface.make u l).surfaces.length)
    (blocks : List (List (List ℚ)))
    (hblocks : BoxSurface.sampleLoop (BoxSurface.make u l).get_mass n unit
      (BoxSurface.make u l).surfaces 0 0 = some blocks)
    (p : List ℚ) (hp : p ∈ blocks.getD j []) :
    ((j % 2 = 0 → p.getD (j / 2) 0 = u.getD (j / 2) 0) ∧
     (j % 2 = 1 → p.getD (j / 2) 0 = l.getD (j / 2) 0)) ∧
    ((∀ r a, 0 < unit j r a ∧ unit j r a < 1) →
     (∀ a, a < u.length → a ≠ j / 2 → u.getD a 0 ≠ l.getD a 0) →
     ((List.range u.length).filter (fun a =>
       decide (p.getD a 0 = u.getD a 0 ∨ p.getD a 0 = l.getD a 0))).length
       = 1) := by
  have hj2 : j < 2 * u.length := by
    rw [← BoxSurface.surfaces_length u l]
    exact hj
  rw [sampleLoop_eq_blocks _ _ _ (ne_of_gt htot) _ 0 0] at hblocks
  have hbl : blocks = (List.range
      (BoxSurface.make u l).surfaces.length).map (fun t =>
        ((BoxSurface.make u l).surfaces.getD t default).sample
          (loopCount (BoxSurface.make u l).get_mass n
            ((BoxSurface.make u l).surfaces.map OrthogonalSurface.get_mass)
            0 t) (unit (0 + t))) := (Option.some.inj hblocks).symm
  subst hbl
  rw [getD_map_range _ hj, Nat.zero_add] at hp
  rcases Nat.even_or_odd j with ⟨i0, hji⟩ | ⟨i0, hji⟩
  · obtain rfl : j = 2 * i0 := by omega
    have hi0 : i0 < u.length := by omega
    have hidx : (2 * i0) / 2 = i0 := by omega
    rw [BoxSurface.surfaces_getD_even u l i0 hi0] at hp
    obtain ⟨r, hr, hpin, hcoords⟩ := facet_sample_coords u l i0 hlen hi0
      (u.getD i0 0) Side.top _ (unit (2 * i0)) p hp
    refine ⟨⟨?_, ?_⟩, ?_⟩
    · intro _
      rw [hidx]
      exact hpin
    · intro hodd
      omega
    · intro hunit hw
      rw [hidx] at hw
      apply congrArg List.length
        (filter_range_eq_singleton u.length i0 _ hi0 ?_) |>.trans rfl
      intro a ha
      rw [decide_eq_true_eq]
      constructor
      · intro hcon
        by_contra hane
        have hc := hcoords a ha hane
        have hne2 := interior_coord_ne (l.getD a 0) (u.getD a 0)
          (unit (2 * i0) r a) (hw a ha hane) (hunit r a).1 (hunit r a).2
        rw [hc] at hcon
        rcases hcon with h | h
        · exact hne2.1 h
        · exact hne2.2 h
      · intro haeq
        subst haeq
        exact Or.inl hpin
  · obtain rfl : j = 2 * i0 + 1 := by omega
    have hi0 : i0 < u.length := by omega
    have hidx : (2 * i0 + 1) / 2 = i0 := by omega
    rw [BoxSurface.surfaces_getD_odd u l i0 hi0] at hp
    obtain ⟨r, hr, hpin, hcoords⟩ := facet_sample_coords u l i0 hlen hi0
      (l.getD i0 0) Side.bottom _ (unit (2 * i0 + 1)) p hp
    refine ⟨⟨?_, ?_⟩, ?_⟩
    · intro heven
      omega
    · intro _
      rw [hidx]
      exact hpin
    · intro hunit hw
      rw [hidx] at hw
      apply congrArg List.length
        (filter_range_eq_singleton u.length i0 _ hi0 ?_) |>.trans rfl
      intro a ha
      rw [decide_eq_true_eq]
      constructor
      · intro hcon
        by_contra hane
        have hc := hcoords a ha hane
        have hne2 := interior_coord_ne (l.getD a 0) (u.getD a 0)
          (unit (2 * i0 + 1) r a) (hw a ha hane) (hunit r a).1 (hunit r a).2
        rw [hc] at hcon
        rcases hcon with h | h
        · exact hne2.1 h
        · exact hne2.2 h
      · intro haeq
        subst haeq
        exact Or.inr hpin

end Regions

namespace Regions

theorem C6_witness :
    ∃ blocks : List (List (List ℚ)),
      BoxSurface.sampleLoop
        (BoxSurface.make ([1,1] : List ℚ) [0,0]).get_mass 1
        (fun _ _ _ => 1/2)
        (BoxSurface.make ([1,1] : List ℚ) [0,0]).surfaces 0 0 =
          some blocks ∧
      ([1/2, 0] : List ℚ) ∈ blocks.getD 3 [] ∧
      ([1/2, 0] : List ℚ).getD (3 / 2) 0 =
        ([0,0] : List ℚ).getD (3 / 2) 0 ∧
      ((List.range 2).filter (fun a =>
        decide (([1/2, 0] : List ℚ).getD a 0 = ([1,1] : List ℚ).getD a 0 ∨
          ([1/2, 0] : List ℚ).getD a 0 =
            ([0,0] : List ℚ).getD a 0))).length = 1 := by
  have hblocks : BoxSurface.sampleLoop
      (BoxSurface.make ([1,1] : List ℚ) [0,0]).get_mass 1
      (fun _ _ _ => 1/2)
      (BoxSurface.make ([1,1] : List ℚ) [0,0]).surfaces 0 0 =
      some [[], [], [], [[1/2, 0]]] := by
    rw [sampleLoop_eq_blocks _ _ _ (by rw [unit_square_mass]; norm_num) _ 0 0]
    congr 1
    rw [unit_square_mass, unit_square_masses]
    rw [show (BoxSurface.make ([1,1] : List ℚ) [0,0]).surfaces.length = 4
      from by rw [BoxSurface.surfaces_length]; norm_num]
    have hc0 : loopCount 4 1 [1,1,1,1] 0 0 = 0 := by
      norm_num [loopCount, pyInt, Int.floor_eq_iff]
    have hc1 : loopCount 4 1 [1,1,1,1] 0 1 = 0 := by
      norm_num [loopCount, pyInt, Int.floor_eq_iff]
    have hc2 : loopCount 4 1 [1,1,1,1] 0 2 = 0 := by
      norm_num [loopCount, pyInt, Int.floor_eq_iff]
    have hc3 : loopCount 4 1 [1,1,1,1] 0 3 = 1 := by
      norm_num [loopCount, pyInt, List.range_succ, Int.floor_eq_iff]
    simp only [List.range_succ, List.range_zero, List.map_append,
      List.map_cons, List.map_nil, List.nil_append, List.cons_append]
    rw [hc0, hc1, hc2, hc3]
    simp [BoxSurface.make, List.range_succ, OrthogonalSurface.sample,
      Box.sample, Box.inp_dim, OrthogonalSurface.make]
  have hp : ([1/2, 0] : List ℚ) ∈
      (([[], [], [], [[1/2, 0]]] : List (List (List ℚ))).getD 3 []) := by
    simp
  have h := C6_sample_facet_extremes [1, 1] [0, 0] 1 (fun _ _ _ => 1/2) rfl
    (by rw [unit_square_mass]; norm_num) 3
    (by rw [BoxSurface.surfaces_length]; norm_num) _ hblocks [1/2, 0] hp
  refine ⟨_, hblocks, hp, h.1.2 (by norm_num), ?_⟩
  exact h.2 (fun r a => ⟨by norm_num, by norm_num⟩)
    (by
      intro a ha hne
      have ha2 : a < 2 := ha
      have hne2 : a ≠ 1 := hne
      interval_cases a
      · simp
      · exact absurd rfl hne2)

end Regions
